import Mathlib

/-!
Shallow embedding of the Model Validation & Leakage Audit Engine of the
Alzheimer-Risk-Prediction repository (source: src/scripts/audit_validation.py),
together with theorems settling the frozen claims about it.

Conventions of the embedding:
* A dataset column is either numeric (rational values, `none` for a missing
  cell) or categorical (string values, `none` for a missing cell), matching
  the pandas dtype split the script branches on.
* Python strings are compared through their character code points
  (`strCodes`), because Python `sorted`, `str.lower` and `in` work on code
  points; all column names in play are ASCII.
* External library calls that the audited code makes are embedded by their
  documented semantics: `roc_auc_score` as the Mann-Whitney statistic with
  ties counted 1/2 (the trapezoidal ROC AUC equals it on finite samples),
  `np.random` shuffling as an arbitrary permutation parameter, the
  `mutual_info_classif` estimate as an arbitrary per-column value parameter,
  and `pd.to_datetime` / integer-dtype probes as boolean oracles per column.
* IEEE-754 double arithmetic in `int(0.7 * n)` is embedded exactly over the
  rationals: the two constants are the binary64 values of 0.7 and 0.85 and
  the product is rounded to nearest-even at 53 significant bits.
-/

-- ---------------------------------------------------------------------------
-- Python string primitives
-- ---------------------------------------------------------------------------

/-- Code points of a string, the view Python string comparison works on. -/
def strCodes (s : String) : List Nat := s.data.map Char.toNat

/-- Code point of `c` lowercased, embedding Python `str.lower` on ASCII. -/
def lowerVal (c : Char) : Nat :=
  if 65 ≤ c.toNat ∧ c.toNat ≤ 90 then c.toNat + 32 else c.toNat

/-- Lowercased code points of a string (`s.lower()` as a code-point list). -/
def lowerCodes (s : String) : List Nat := s.data.map lowerVal

/-- Python lexicographic `<` on code-point lists. -/
def codesLt : List Nat → List Nat → Bool
  | [], [] => false
  | [], _ :: _ => true
  | _ :: _, [] => false
  | a :: as, b :: bs => if a < b then true else if a = b then codesLt as bs else false

/-- Python string `<` via code points. -/
def pyStrLt (a b : String) : Bool := codesLt (strCodes a) (strCodes b)

/-- Python `sorted` on names: ascending code-point order. -/
def pySortStrings (l : List String) : List String :=
  List.insertionSort (fun a b => ¬ pyStrLt b a = true) l

/-- Python substring test `t in s` on code-point lists. -/
def codesContains (t l : List Nat) : Bool :=
  (List.range (l.length + 1)).any (fun i => ((l.drop i).take t.length) == t)

/-- Order-of-first-occurrence deduplication (`dict.fromkeys` / `unique`). -/
def uniqAux {α : Type} [DecidableEq α] (seen : List α) : List α → List α
  | [] => []
  | a :: t => if a ∈ seen then uniqAux seen t else a :: uniqAux (a :: seen) t

/-- Distinct elements of a list in order of first occurrence. -/
def uniqList {α : Type} [DecidableEq α] (l : List α) : List α := uniqAux [] l

-- ---------------------------------------------------------------------------
-- Data model: a pandas DataFrame as named typed columns
-- ---------------------------------------------------------------------------

/-- One column of the dataset: numeric or categorical, cells may be missing. -/
inductive ColData : Type
  | num (vals : List (Option ℚ))
  | cat (vals : List (Option String))
deriving DecidableEq

/-- A dataframe: ordered, named columns. -/
abbrev Frame : Type := List (String × ColData)

/-- Column names in order (`df.columns`). -/
def frameNames (df : Frame) : List String := df.map Prod.fst

-- Config constants of audit_validation.py.

/-- Preferred exact target names (audit_validation.py `TARGET_PREFERRED`). -/
def TARGET_PREFERRED : List String := ["Diagnosis", "diagnosis"]

/-- Hint words for the target (audit_validation.py `TARGET_CANDIDATE_HINTS`). -/
def TARGET_CANDIDATE_HINTS : List String :=
  ["diagnosis", "label", "target", "alz", "outcome"]

/-- Temporal-role name tokens (audit_validation.py `DATE_TOKENS`). -/
def DATE_TOKENS : List String := ["date", "year"]

/-- Number of outer CV folds (audit_validation.py `N_OUTER`). -/
def N_OUTER : Nat := 5

-- ---------------------------------------------------------------------------
-- detect_target
-- ---------------------------------------------------------------------------

/-- The binary-column probe of `detect_target`: the distinct non-missing
values are at most 3 and form a subset of {0, 1}.  A categorical column can
qualify only when it has no non-missing values, since a numpy string value
never equals the numbers 0 or 1. -/
def binaryQualifies : ColData → Bool
  | ColData.num vs =>
    (uniqList (vs.filterMap id)).length ≤ 3 &&
      (uniqList (vs.filterMap id)).all (fun v => v == 0 || v == 1)
  | ColData.cat vs =>
    (uniqList (vs.filterMap id)).length ≤ 3 && (uniqList (vs.filterMap id)).isEmpty

/-- The binary fallback candidates of `detect_target`, in column order. -/
def binaryCandidates (df : Frame) : List String :=
  (df.filter (fun cd => binaryQualifies cd.2)).map Prod.fst

/-- The dict `lower_cols = {c.lower(): c}` looked up at a lowercase hint:
the last column (later dict writes win) whose lowercased name is the hint. -/
def lowerLookup (names : List String) (hint : String) : Option String :=
  names.reverse.find? (fun c => lowerCodes c == strCodes hint)

/-- The ambiguity error message `detect_target` raises. -/
def ambiguityMessage (cands : List String) : String :=
  "Unable to uniquely determine target column. Candidates: "
    ++ String.intercalate ", " cands
    ++ ". Please rename your target to 'Diagnosis' or pass explicitly."

/-- Embedding of `detect_target` (audit_validation.py, lines 80-103):
first an exact match against `TARGET_PREFERRED`, then an exact lowercase
match against `TARGET_CANDIDATE_HINTS` through the `lower_cols` dict, then
the unique-binary-column fallback, else the ambiguity error. -/
def detect_target (df : Frame) : Except String String :=
  match TARGET_PREFERRED.find? (fun nm => (frameNames df).contains nm) with
  | some nm => Except.ok nm
  | none =>
    match TARGET_CANDIDATE_HINTS.findSome? (fun h => lowerLookup (frameNames df) h) with
    | some c => Except.ok c
    | none =>
      match binaryCandidates df with
      | [c] => Except.ok c
      | _ => Except.error (ambiguityMessage (binaryCandidates df))

-- ---------------------------------------------------------------------------
-- find_columns_by_tokens and get_date_column
-- ---------------------------------------------------------------------------

/-- Embedding of `find_columns_by_tokens` (audit_validation.py, lines
106-114): the names whose lowercase form contains some token as a substring,
deduplicated and returned in Python ascending string order. -/
def find_columns_by_tokens (names : List String) (tokens : List String) : List String :=
  pySortStrings (uniqList
    (names.filter (fun c => tokens.any (fun t => codesContains (strCodes t) (lowerCodes c)))))

/-- Embedding of `get_date_column` (audit_validation.py, lines 130-142).
The pandas value probes are boolean oracles per column name: `parses` for
`pd.to_datetime(s, errors="raise")` succeeding and `isInt` for
`pd.api.types.is_integer_dtype(s)`.  The loop makes a single pass over the
name-matched candidates and returns the first one passing either probe
(date parse checked first for each candidate), else the first candidate,
else `none`. -/
def get_date_column (names : List String) (parses isInt : String → Bool) : Option String :=
  match (find_columns_by_tokens names DATE_TOKENS).find? (fun c => parses c || isInt c) with
  | some c => some c
  | none => (find_columns_by_tokens names DATE_TOKENS).head?

/-- Modelled from the spec sentence for C7, for comparison with
`get_date_column`: a strict three-tier preference that scans all candidates
for a date-parsing one first, only then scans all candidates for an
integer-typed one, and only then falls back to the first candidate. -/
def get_date_column_spec (names : List String) (parses isInt : String → Bool) : Option String :=
  match (find_columns_by_tokens names DATE_TOKENS).find? (fun c => parses c) with
  | some c => some c
  | none =>
    match (find_columns_by_tokens names DATE_TOKENS).find? (fun c => isInt c) with
    | some c => some c
    | none => (find_columns_by_tokens names DATE_TOKENS).head?

-- ---------------------------------------------------------------------------
-- Temporal split sizes: exact binary64 arithmetic of int(0.7 * n)
-- ---------------------------------------------------------------------------

/-- The binary64 double nearest 0.7, scaled by 2^53: double(0.7) equals
`FLOAT07_SIG / 2 ^ 53` exactly. -/
def FLOAT07_SIG : Nat := 6305039478318694

/-- The binary64 double nearest 0.85, scaled by 2^53: double(0.85) equals
`FLOAT085_SIG / 2 ^ 53` exactly. -/
def FLOAT085_SIG : Nat := 7656119366529843

/-- The shift `s` such that `N / 2 ^ s` lies in `[2 ^ 52, 2 ^ 53)`, i.e. the
number of low bits dropped when rounding the integer `N` to a 53-bit
significand; 0 when `N < 2 ^ 52` (then `N` is already exact). -/
def shift52 (N : Nat) : Nat :=
  ((List.range 64).find? (fun s =>
    decide (2 ^ (52 + s) ≤ N) && decide (N < 2 ^ (53 + s)))).getD 0

/-- Round `N / 2 ^ s` to the nearest integer, ties to even (IEEE-754
round-to-nearest-even of a significand). -/
def roundHalfEven (N s : Nat) : Nat :=
  let t := N / 2 ^ s
  let r := N % 2 ^ s
  if 2 * r < 2 ^ s then t
  else if 2 ^ s < 2 * r then t + 1
  else if t % 2 = 0 then t else t + 1

/-- `int(c / 2 ^ 53 * n)` in Python: the exact product `c * n / 2 ^ 53` is
rounded to the nearest binary64 value (53 significant bits, ties to even)
and the result truncated to an integer.  Faithful for `n < 2 ^ 60`, far
beyond any dataset size. -/
def floatProdTrunc (c n : Nat) : Nat :=
  let N := c * n
  let s := shift52 N
  (roundHalfEven N s * 2 ^ s) / 2 ^ 53

/-- The temporal section of the feasibility report: either position-based
split sizes for a detected date column, or the skip message. -/
inductive TemporalResult : Type
  | sizes (dateCol : String) (train val test : Nat)
  | skipped (msg : String)
deriving DecidableEq

/-- Embedding of the temporal half of `temporal_site_validation`
(audit_validation.py, lines 267-293): with a detected date column the report
carries `train = int(0.7 * n)`, `val = int(0.85 * n) - int(0.7 * n)`,
`test = n - int(0.85 * n)` computed in binary64 arithmetic over the full row
count `n`; without one it carries only the skip message.  The site half of
the function is independent of the temporal claims and not modelled. -/
def temporal_site_validation (names : List String) (parses isInt : String → Bool)
    (n : Nat) : TemporalResult :=
  match get_date_column names parses isInt with
  | some c =>
    TemporalResult.sizes c (floatProdTrunc FLOAT07_SIG n)
      (floatProdTrunc FLOAT085_SIG n - floatProdTrunc FLOAT07_SIG n)
      (n - floatProdTrunc FLOAT085_SIG n)
  | none => TemporalResult.skipped "No date/year column detected; temporal split skipped."

-- ---------------------------------------------------------------------------
-- Nested cross-validation: sklearn StratifiedKFold and the outer fold loop
-- ---------------------------------------------------------------------------

/-- Helper for the fold allocation of sklearn `StratifiedKFold`: the values
`j % k` over the positions `j` (counted from the accumulator) at which the
list holds class `c`.  Applied to the sorted label list this reproduces
`np.arange(n_splits).repeat(allocation[:, c])` as a multiset, since
`allocation[i][c]` counts the sorted positions of class `c` congruent to
`i` modulo `n_splits`. -/
def posTags (k c : Nat) : Nat → List Nat → List Nat
  | _, [] => []
  | j, a :: t => if a = c then j % k :: posTags k c (j + 1) t else posTags k c (j + 1) t

/-- Ascending sort on naturals (`np.sort`). -/
def sortNat (l : List Nat) : List Nat := List.insertionSort (fun a b => a ≤ b) l

/-- The per-class fold-id list `np.arange(n_splits).repeat(allocation[:, c])`
of `StratifiedKFold._make_test_folds`, before shuffling. -/
def foldsForClass (k : Nat) (y : List Nat) (c : Nat) : List Nat :=
  sortNat (posTags k c 0 (sortNat y))

/-- The test-fold id assigned to row `r` by `StratifiedKFold` with `shuffle`
embedded as the permutation parameter `σ` (class, fold-id list ↦ shuffled
fold-id list): row `r` of class `c` receives the entry of the shuffled
per-class list at the number of earlier rows of the same class, exactly the
`test_folds[y == c] = folds_for_class` assignment. -/
def testFoldOf (k : Nat) (y : List Nat) (σ : Nat → List Nat → List Nat) (r : Nat) : Nat :=
  (σ (y.getD r 0) (foldsForClass k y (y.getD r 0))).getD ((y.take r).count (y.getD r 0)) 0

/-- Row indices of the outer-test partition of fold `i` (ascending, as
`split` yields them). -/
def stratified_test_indices (k : Nat) (y : List Nat) (σ : Nat → List Nat → List Nat)
    (i : Nat) : List Nat :=
  (List.range y.length).filter (fun r => testFoldOf k y σ r == i)

/-- Row indices of the outer-training partition of fold `i`. -/
def stratified_train_indices (k : Nat) (y : List Nat) (σ : Nat → List Nat → List Nat)
    (i : Nat) : List Nat :=
  (List.range y.length).filter (fun r => testFoldOf k y σ r != i)

/-- One outer fold of `nested_cv_scores`: its 1-based index, its training
and test row indices, and the row indices of the data every `fit` call of
the fold receives (`search.fit(Xtr, ytr)` and the best-estimator refit are
given exactly the rows of `tr_idx`). -/
structure FoldRun : Type where
  fold : Nat
  tr_idx : List Nat
  te_idx : List Nat
  fit_idx : List Nat
deriving DecidableEq

/-- Embedding of the outer fold loop of `nested_cv_scores`
(audit_validation.py, lines 229-257): `enumerate(outer.split(X, y), start=1)`
with the per-fold pipeline and grid search fit on `Xtr, ytr` only. -/
def nested_cv_folds (k : Nat) (y : List Nat) (σ : Nat → List Nat → List Nat) :
    List FoldRun :=
  (List.range k).map (fun i =>
    ⟨i + 1, stratified_train_indices k y σ i, stratified_test_indices k y σ i,
      stratified_train_indices k y σ i⟩)

/-- Demo label vector for the nested-CV witness: ten rows, two balanced
classes, so every class count is at least `N_OUTER`. -/
def yDemo : List Nat := [0, 1, 0, 1, 0, 1, 0, 1, 0, 1]

/-- The identity shuffle, a concrete permutation parameter. -/
def idShuffle : Nat → List Nat → List Nat := fun _ l => l

/-- The first outer fold produced on `yDemo` with the identity shuffle. -/
def frDemo : FoldRun :=
  ⟨1, [2, 3, 4, 5, 6, 7, 8, 9], [0, 1], [2, 3, 4, 5, 6, 7, 8, 9]⟩

-- ---------------------------------------------------------------------------
-- Leakage audit: single_feature_auc
-- ---------------------------------------------------------------------------

/-- Contribution of one (positive, negative) score pair to the Mann-Whitney
statistic: 1 when the positive ranks higher, 1/2 on a tie, 0 otherwise. -/
def pairScore (a b : ℚ) : ℚ := if b < a then 1 else if a = b then 1 / 2 else 0

/-- Scores of the positive-class rows. -/
def posVals (y : List Bool) (x : List ℚ) : List ℚ :=
  ((y.zip x).filter (fun p => p.1)).map Prod.snd

/-- Scores of the negative-class rows. -/
def negVals (y : List Bool) (x : List ℚ) : List ℚ :=
  ((y.zip x).filter (fun p => !p.1)).map Prod.snd

/-- The Mann-Whitney pair sum over all positive/negative row pairs. -/
def aucSum (y : List Bool) (x : List ℚ) : ℚ :=
  ((posVals y x).map (fun a => ((negVals y x).map (fun b => pairScore a b)).sum)).sum

/-- sklearn `roc_auc_score(y, x)` for a binary target: on finite samples the
trapezoidal ROC AUC equals the Mann-Whitney statistic with ties counted 1/2,
normalised by the number of positive/negative pairs; it raises when only one
class is present. -/
def roc_auc_score (y : List Bool) (x : List ℚ) : Except String ℚ :=
  if posVals y x = [] ∨ negVals y x = [] then
    Except.error "Only one class present in y_true. ROC AUC score is not defined in that case."
  else
    Except.ok (aucSum y x / ((posVals y x).length * (negVals y x).length))

/-- The categorical AUC proxy of `single_feature_auc`: one-hot encode with
`pd.get_dummies(x, dummy_na=True)` (one indicator per distinct non-missing
value plus an always-present missing indicator) and average the indicator
columns row-wise. -/
def catProbs (vs : List (Option String)) : List ℚ :=
  vs.map (fun v =>
    (((uniqList (vs.filterMap id)).map (fun cval => if v = some cval then (1 : ℚ) else 0)).sum
        + (if v = none then 1 else 0))
      / ((uniqList (vs.filterMap id)).length + 1))

/-- The per-column score attempt inside the `single_feature_auc` loop:
numeric columns are scored directly (a missing cell makes `roc_auc_score`
raise), categorical columns through the one-hot row-mean proxy. -/
def colScore (y : List Bool) : ColData → Except String ℚ
  | ColData.num vs =>
    if vs.any (fun o => o.isNone) then Except.error "Input contains NaN"
    else roc_auc_score y (vs.map (fun o => o.getD 0))
  | ColData.cat vs => roc_auc_score y (catProbs vs)

/-- Embedding of `single_feature_auc` (audit_validation.py, lines 172-189):
per column the chance-distance fold `max(score, 1 - score)` of its AUC,
columns whose computation raises being silently skipped. -/
def single_feature_auc (cols : Frame) (y : List Bool) : List (String × ℚ) :=
  cols.foldr (fun cd acc =>
    match colScore y cd.2 with
    | Except.ok s => (cd.1, max s (1 - s)) :: acc
    | Except.error _ => acc) []

-- ---------------------------------------------------------------------------
-- mutual_info_scores and the top-suspicious report of main
-- ---------------------------------------------------------------------------

/-- Whether a column is numeric (`pd.api.types.is_numeric_dtype`). -/
def isNumCol : ColData → Bool
  | ColData.num _ => true
  | ColData.cat _ => false

/-- Column names produced by `pd.get_dummies(X_enc[c], prefix=c,
dummy_na=True)`: one `c_value` indicator per distinct non-missing value in
sorted order, then the always-present `c_nan` indicator. -/
def dummyNames (c : String) (vs : List (Option String)) : List String :=
  (pySortStrings (uniqList (vs.filterMap id))).map (fun v => c ++ "_" ++ v)
    ++ [c ++ "_nan"]

/-- The columns of `X_enc` after the encoding loop of `mutual_info_scores`:
every categorical column is dropped and its dummies concatenated at the end,
so the numeric columns keep their place and name, followed by the dummy
blocks in original categorical-column order. -/
def mutual_info_encode (cols : Frame) : List String :=
  (cols.filter (fun cd => isNumCol cd.2)).map Prod.fst
    ++ cols.flatMap (fun cd =>
      match cd.2 with
      | ColData.num _ => []
      | ColData.cat vs => dummyNames cd.1 vs)

/-- Embedding of `mutual_info_scores` (audit_validation.py, lines 192-201):
the returned dict maps each ENCODED column name to the estimate at its
position; the `mutual_info_classif` output vector is the value parameter
`est`.  Note the keys are the post-encoding names, not the original
categorical column names. -/
def mutual_info_scores (cols : Frame) (est : Nat → ℚ) : List (String × ℚ) :=
  (mutual_info_encode cols).enum.map (fun p => (p.2, est p.1))

/-- Python `dict.get(k)` over key-value pairs: later writes win. -/
def dictGet (l : List (String × ℚ)) (k : String) : Option ℚ :=
  (l.reverse.find? (fun p => p.1 == k)).map Prod.snd

/-- One row of the top-suspicious table of `main`: the feature name and its
two optional scores (`np.nan`, i.e. a missing dict key, is `none`). -/
structure SuspEntry : Type where
  feature : String
  auc : Option ℚ
  mi : Option ℚ
deriving DecidableEq

/-- The tuples `(c, aucs.get(c, nan), mi.get(c, nan))` of `main` (lines
332-338), over all dataframe columns except the target. -/
def leakEntries (names : List String) (target : String)
    (aucs mi : List (String × ℚ)) : List SuspEntry :=
  (names.filter (fun c => c ≠ target)).map (fun c => ⟨c, dictGet aucs c, dictGet mi c⟩)

/-- One component of the Python sort key
`(not isnan(v) and -v)`: `False` for a missing score, `-v` for a present
one; Python compares `False` as the number 0. -/
def pyKey (o : Option ℚ) : ℚ :=
  match o with
  | none => 0
  | some v => -v

/-- The full sort key of one entry. -/
def suspKey (e : SuspEntry) : ℚ × ℚ := (pyKey e.auc, pyKey e.mi)

/-- Strict lexicographic order on key pairs (Python tuple `<`). -/
def qpairLt (p q : ℚ × ℚ) : Prop := p.1 < q.1 ∨ (p.1 = q.1 ∧ p.2 < q.2)

instance qpairLtDecidable (p q : ℚ × ℚ) : Decidable (qpairLt p q) :=
  decidable_of_iff (p.1 < q.1 ∨ (p.1 = q.1 ∧ p.2 < q.2)) Iff.rfl

/-- Total order realising Python's stable `sorted`: by key, ties by
original position. -/
def suspLE (a b : Nat × SuspEntry) : Prop :=
  qpairLt (suspKey a.2) (suspKey b.2) ∨ (suspKey a.2 = suspKey b.2 ∧ a.1 ≤ b.1)

instance suspLEDecidable : DecidableRel suspLE := fun a b =>
  decidable_of_iff
    (qpairLt (suspKey a.2) (suspKey b.2) ∨ (suspKey a.2 = suspKey b.2 ∧ a.1 ≤ b.1))
    Iff.rfl

instance suspLETotal : IsTotal (Nat × SuspEntry) suspLE := by
  refine ⟨fun a b => ?_⟩
  unfold suspLE qpairLt
  rcases lt_trichotomy (suspKey a.2).1 (suspKey b.2).1 with h | h | h
  · exact Or.inl (Or.inl (Or.inl h))
  · rcases lt_trichotomy (suspKey a.2).2 (suspKey b.2).2 with h2 | h2 | h2
    · exact Or.inl (Or.inl (Or.inr ⟨h, h2⟩))
    · have hk : suspKey a.2 = suspKey b.2 := Prod.ext h h2
      rcases Nat.le_total a.1 b.1 with h3 | h3
      · exact Or.inl (Or.inr ⟨hk, h3⟩)
      · exact Or.inr (Or.inr ⟨hk.symm, h3⟩)
    · exact Or.inr (Or.inl (Or.inr ⟨h.symm, h2⟩))
  · exact Or.inr (Or.inl (Or.inl h))

instance suspLETrans : IsTrans (Nat × SuspEntry) suspLE := by
  refine ⟨fun a b c hab hbc => ?_⟩
  have qtrans : ∀ p q r : ℚ × ℚ, qpairLt p q → qpairLt q r → qpairLt p r := by
    intro p q r h1 h2
    unfold qpairLt at h1 h2 ⊢
    rcases h1 with h1 | ⟨h1a, h1b⟩ <;> rcases h2 with h2 | ⟨h2a, h2b⟩
    · exact Or.inl (lt_trans h1 h2)
    · exact Or.inl (h2a ▸ h1)
    · exact Or.inl (h1a ▸ h2)
    · exact Or.inr ⟨h1a.trans h2a, lt_trans h1b h2b⟩
  rcases hab with hab | ⟨haK, hai⟩
  · rcases hbc with hbc | ⟨hbK, _⟩
    · exact Or.inl (qtrans _ _ _ hab hbc)
    · exact Or.inl (hbK ▸ hab)
  · rcases hbc with hbc | ⟨hbK, hbi⟩
    · refine Or.inl ?_
      rw [haK]
      exact hbc
    · exact Or.inr ⟨haK.trans hbK, le_trans hai hbi⟩

/-- Python's stable `sorted(entries, key=...)`: tag with original indices,
sort by (key, index) — a total antisymmetric order, so this is exactly the
stable result — and strip the tags. -/
def pyStableSortSusp (l : List SuspEntry) : List SuspEntry :=
  (List.insertionSort suspLE l.enum).map Prod.snd

/-- The `top_suspicious` list of `main` (audit_validation.py, lines
332-342): the entries sorted by the Python key, truncated to 30. -/
def top_suspicious (names : List String) (target : String)
    (aucs mi : List (String × ℚ)) : List SuspEntry :=
  (pyStableSortSusp (leakEntries names target aucs mi)).take 30

/-- Rank of an optional score with a missing score strictly below every
present one, the reading of "missing scores as lowest priority". -/
def specRank (o : Option ℚ) : WithBot ℚ :=
  match o with
  | none => ⊥
  | some v => (v : WithBot ℚ)

/-- Modelled from the spec sentence for C5, for comparison with the
implemented order: descending primarily by discriminative score and
secondarily by mutual information, a missing score ranking strictly below
every present score at its tier. -/
def specLE (e1 e2 : SuspEntry) : Prop :=
  specRank e2.auc < specRank e1.auc
    ∨ (specRank e1.auc = specRank e2.auc ∧ specRank e2.mi ≤ specRank e1.mi)

instance specLEDecidable (e1 e2 : SuspEntry) : Decidable (specLE e1 e2) :=
  decidable_of_iff
    (specRank e2.auc < specRank e1.auc
      ∨ (specRank e1.auc = specRank e2.auc ∧ specRank e2.mi ≤ specRank e1.mi))
    Iff.rfl

/-- The order the implementation actually realises between consecutive
emitted entries: ascending in the Python key (missing score ↦ 0, present
score ↦ its negation), ties allowed. -/
def implKeyLE (e1 e2 : SuspEntry) : Prop :=
  qpairLt (suspKey e1) (suspKey e2) ∨ suspKey e1 = suspKey e2

-- Concrete frames used by witnesses and counterexamples for target detection.

/-- Frame with two binary columns, a non-binary column, and no name matching
any preferred name or hint. -/
def frameTwoBinary : Frame :=
  [("A", ColData.num [some 0, some 1]),
   ("B", ColData.num [some 1, some 0]),
   ("X", ColData.num [some 5, some 7])]

/-- Frame whose single column contains the hint word "label" as a proper
substring of its lowercased name, with non-binary values. -/
def frameSubstringHint : Frame :=
  [("MyLabelCol", ColData.num [some 5, some 7])]

/-- Frame with a literal Diagnosis column plus another binary column. -/
def frameDiagnosis : Frame :=
  [("Other", ColData.num [some 0, some 1]),
   ("Diagnosis", ColData.num [some 1, some 0])]

/-- Frame whose single column name lowercases exactly to the hint "label". -/
def frameExactHint : Frame :=
  [("Label", ColData.num [some 5, some 7])]

-- ---------------------------------------------------------------------------
-- Theorems: C9, C2, C3
-- ---------------------------------------------------------------------------

/-- C9: a dataset containing a column literally named Diagnosis always
resolves to that column, regardless of other binary-valued or hint-matching
columns, and never reaches the ambiguity error. -/
theorem detect_target_diagnosis (df : Frame)
    (h : "Diagnosis" ∈ frameNames df) :
    detect_target df = Except.ok "Diagnosis" := by
  unfold detect_target
  simp [TARGET_PREFERRED, List.find?, List.contains, List.elem_iff, h]

/-- C9 witness: on a concrete frame with a Diagnosis column and another
binary column, detection returns Diagnosis. -/
theorem detect_target_diagnosis_witness :
    detect_target frameDiagnosis = Except.ok "Diagnosis" :=
  detect_target_diagnosis frameDiagnosis (by decide)

/-- C2: when no column name is a preferred target name, no column lowercases
exactly to a hint word, and exactly two columns qualify as binary candidates,
target detection fails with the ambiguity error listing exactly those two
columns. -/
theorem detect_target_ambiguous (df : Frame) (c1 c2 : String)
    (h1 : ∀ nm ∈ TARGET_PREFERRED, nm ∉ frameNames df)
    (h2 : ∀ c ∈ frameNames df, ∀ hint ∈ TARGET_CANDIDATE_HINTS,
      lowerCodes c ≠ strCodes hint)
    (h3 : binaryCandidates df = [c1, c2]) :
    detect_target df = Except.error (ambiguityMessage [c1, c2]) := by
  unfold detect_target
  have hp : TARGET_PREFERRED.find? (fun nm => (frameNames df).contains nm) = none := by
    rw [List.find?_eq_none]
    intro nm hnm
    simp only [List.contains, List.elem_iff]
    exact h1 nm hnm
  have hh : TARGET_CANDIDATE_HINTS.findSome?
      (fun h => lowerLookup (frameNames df) h) = none := by
    rw [List.findSome?_eq_none]
    intro hint hhint
    unfold lowerLookup
    rw [List.find?_eq_none]
    intro c hcmem
    rw [List.mem_reverse] at hcmem
    simp only [Bool.not_eq_true, beq_eq_false_iff_ne]
    exact h2 c hcmem hint hhint
  rw [hp, hh, h3]

/-- C2 witness: the two-binary-column frame produces the ambiguity error
naming exactly its two binary candidates A and B. -/
theorem detect_target_ambiguous_witness :
    detect_target frameTwoBinary = Except.error (ambiguityMessage ["A", "B"]) :=
  detect_target_ambiguous frameTwoBinary "A" "B"
    (by decide) (by decide) (by decide)

/-- C3 counterexample: a frame whose only column name contains the hint word
"label" as a proper substring of its lowercase form, with no preferred name
present; the claim says detection must succeed via the substring match, but
`detect_target` matches hints by exact lowercase equality and falls through
to the binary fallback, which fails with the ambiguity error. -/
theorem detect_target_substring_cex :
    codesContains (strCodes "label") (lowerCodes "MyLabelCol") = true
      ∧ (∀ nm ∈ TARGET_PREFERRED, nm ∉ frameNames frameSubstringHint)
      ∧ (∀ c, detect_target frameSubstringHint ≠ Except.ok c) := by
  refine ⟨by decide, by decide, ?_⟩
  intro c h
  have he : detect_target frameSubstringHint = Except.error (ambiguityMessage []) := by rfl
  rw [he] at h
  exact Except.noConfusion h

/-- C3 amended: with no preferred name present, if the hint scan (exact
lowercase equality against the hint-word list, later columns winning for a
given hint) finds a column, then target detection succeeds with that column,
whose lowercased name equals one of the hint words, without reaching the
binary-values fallback. -/
theorem detect_target_hint_amended (df : Frame) (c : String)
    (h1 : ∀ nm ∈ TARGET_PREFERRED, nm ∉ frameNames df)
    (h2 : TARGET_CANDIDATE_HINTS.findSome?
      (fun h => lowerLookup (frameNames df) h) = some c) :
    detect_target df = Except.ok c
      ∧ ∃ hint ∈ TARGET_CANDIDATE_HINTS, lowerCodes c = strCodes hint := by
  constructor
  · unfold detect_target
    have hp : TARGET_PREFERRED.find? (fun nm => (frameNames df).contains nm) = none := by
      rw [List.find?_eq_none]
      intro nm hnm
      simp only [List.contains, List.elem_iff]
      exact h1 nm hnm
    rw [hp, h2]
  · obtain ⟨hint, hhint, hfind⟩ := List.exists_of_findSome?_eq_some h2
    refine ⟨hint, hhint, ?_⟩
    have := List.find?_some hfind
    exact eq_of_beq this

/-- C3-amended witness: a frame whose column Label lowercases exactly to the
hint word "label" resolves to that column through the hint scan. -/
theorem detect_target_hint_amended_witness :
    detect_target frameExactHint = Except.ok "Label"
      ∧ ∃ hint ∈ TARGET_CANDIDATE_HINTS, lowerCodes "Label" = strCodes hint :=
  detect_target_hint_amended frameExactHint "Label" (by decide) (by decide)

-- ---------------------------------------------------------------------------
-- Theorems: C7, C8
-- ---------------------------------------------------------------------------

/-- C7 counterexample: with the name-matched candidates "Adate" (integer
typed, not date-parsable) and "Byear" (date-parsable) in sorted order, the
code returns "Adate" while the three-tier preference of the claim would
return "Byear": the loop accepts an integer-typed candidate before probing
later candidates for date parsing. -/
theorem get_date_column_tiers_cex :
    get_date_column ["Adate", "Byear"] (fun c => c == "Byear") (fun c => c == "Adate")
      = some "Adate"
    ∧ get_date_column_spec ["Adate", "Byear"] (fun c => c == "Byear") (fun c => c == "Adate")
      = some "Byear"
    ∧ some "Adate" ≠ some "Byear" := by
  refine ⟨by decide, by decide, by decide⟩

/-- C7 amended: temporal-column selection makes a single pass over the
sorted name-matched candidates and returns the first one whose values parse
as dates or, failing the parse for that same candidate, are integer-typed;
only if every candidate fails both probes does it return the first candidate
with no value validation, and it returns none when there are no candidates
at all. -/
theorem get_date_column_amended (names : List String) (parses isInt : String → Bool) :
    (find_columns_by_tokens names DATE_TOKENS = [] →
      get_date_column names parses isInt = none)
    ∧ (∀ c, (find_columns_by_tokens names DATE_TOKENS).find?
        (fun c => parses c || isInt c) = some c →
      get_date_column names parses isInt = some c
        ∧ c ∈ find_columns_by_tokens names DATE_TOKENS
        ∧ (parses c = true ∨ isInt c = true))
    ∧ ((∀ c ∈ find_columns_by_tokens names DATE_TOKENS,
        parses c = false ∧ isInt c = false) →
      get_date_column names parses isInt
        = (find_columns_by_tokens names DATE_TOKENS).head?) := by
  refine ⟨?_, ?_, ?_⟩
  · intro h
    unfold get_date_column
    rw [h]
    rfl
  · intro c hfind
    unfold get_date_column
    rw [hfind]
    refine ⟨rfl, List.mem_of_find?_eq_some hfind, ?_⟩
    have := List.find?_some hfind
    rcases Bool.or_eq_true_iff.mp this with h | h
    · exact Or.inl h
    · exact Or.inr h
  · intro h
    unfold get_date_column
    have hnone : (find_columns_by_tokens names DATE_TOKENS).find?
        (fun c => parses c || isInt c) = none := by
      rw [List.find?_eq_none]
      intro c hc
      have := h c hc
      simp [this.1, this.2]
    rw [hnone]

/-- C7-amended witness: concrete instances of all three branches — empty
candidate set gives none, a probe-passing candidate is returned, and with
all probes failing the first candidate is returned unvalidated. -/
theorem get_date_column_amended_witness :
    get_date_column ["Age"] (fun _ => true) (fun _ => true) = none
    ∧ get_date_column ["Adate", "Byear"] (fun c => c == "Byear") (fun c => c == "Adate")
        = some "Adate"
    ∧ get_date_column ["Adate", "Byear"] (fun _ => false) (fun _ => false)
        = some "Adate" := by
  refine ⟨?_, ?_, ?_⟩
  · exact (get_date_column_amended ["Age"] (fun _ => true) (fun _ => true)).1 (by decide)
  · exact ((get_date_column_amended ["Adate", "Byear"] (fun c => c == "Byear")
      (fun c => c == "Adate")).2.1 "Adate" (by decide)).1
  · exact ((get_date_column_amended ["Adate", "Byear"] (fun _ => false)
      (fun _ => false)).2.2 (by decide)).trans (by decide)

/-- C8 counterexample: at n = 90 with a detected "Date" column the report
sizes are 62/14/14, but floor(0.7 * 90) = 63: `int(0.7 * n)` in binary64
arithmetic is not floor(7n/10), because double(0.7) * 90 rounds to
62.99999999999999289. -/
theorem temporal_split_floor_cex :
    temporal_site_validation ["Date"] (fun c => c == "Date") (fun _ => false) 90
      = TemporalResult.sizes "Date" 62 14 14
    ∧ (7 * 90) / 10 = 63
    ∧ (62 : Nat) ≠ 63 := by
  refine ⟨by decide, by decide, by decide⟩

/-- C8 amended: with a detected temporal column the report carries
position-based sizes train = int(0.7*n), val = int(0.85*n) - int(0.7*n),
test = n - int(0.85*n) computed in binary64 float arithmetic (which can
differ from the exact floors, as at n = 90); for n = 500 this gives
350/75/75; with no temporal column the report is only the skip message and
no split sizes are computed. -/
theorem temporal_split_sizes_amended (names : List String)
    (parses isInt : String → Bool) (n : Nat) :
    (find_columns_by_tokens names DATE_TOKENS = [] →
      temporal_site_validation names parses isInt n
        = TemporalResult.skipped "No date/year column detected; temporal split skipped.")
    ∧ (∀ c, get_date_column names parses isInt = some c →
      temporal_site_validation names parses isInt n
        = TemporalResult.sizes c (floatProdTrunc FLOAT07_SIG n)
            (floatProdTrunc FLOAT085_SIG n - floatProdTrunc FLOAT07_SIG n)
            (n - floatProdTrunc FLOAT085_SIG n))
    ∧ (∀ c, get_date_column names parses isInt = some c →
      temporal_site_validation names parses isInt 500
        = TemporalResult.sizes c 350 75 75) := by
  refine ⟨?_, ?_, ?_⟩
  · intro h
    unfold temporal_site_validation get_date_column
    rw [h]
    rfl
  · intro c h
    unfold temporal_site_validation
    rw [h]
  · intro c h
    unfold temporal_site_validation
    rw [h]
    have h7 : floatProdTrunc FLOAT07_SIG 500 = 350 := by decide
    have h85 : floatProdTrunc FLOAT085_SIG 500 = 425 := by decide
    rw [h7, h85]

/-- C8-amended witness: the skip branch on a frame with no temporal token,
and the 350/75/75 sizes at n = 500 on a frame with a Date column. -/
theorem temporal_split_sizes_amended_witness :
    temporal_site_validation ["Age"] (fun _ => true) (fun _ => true) 500
      = TemporalResult.skipped "No date/year column detected; temporal split skipped."
    ∧ temporal_site_validation ["Date"] (fun c => c == "Date") (fun _ => false) 500
      = TemporalResult.sizes "Date" 350 75 75 := by
  constructor
  · exact (temporal_split_sizes_amended ["Age"] (fun _ => true) (fun _ => true) 500).1
      (by decide)
  · exact (temporal_split_sizes_amended ["Date"] (fun c => c == "Date")
      (fun _ => false) 500).2.2 "Date" (by decide)

-- ---------------------------------------------------------------------------
-- Theorems: C1 (nested CV partition and train-only fitting)
-- ---------------------------------------------------------------------------

/-- The per-class tag list has one entry per occurrence of the class. -/
theorem posTags_length (k c : Nat) : ∀ (j : Nat) (l : List Nat),
    (posTags k c j l).length = l.count c
  | _, [] => by simp [posTags]
  | j, a :: t => by
    by_cases h : a = c
    · simp [posTags, h, posTags_length k c (j + 1) t, List.count_cons]
    · simp [posTags, h, posTags_length k c (j + 1) t, List.count_cons]

/-- Every per-class tag is a residue modulo `k`, hence below `k`. -/
theorem posTags_mem_lt {k : Nat} (hk : 0 < k) (c : Nat) : ∀ (j : Nat) (l : List Nat)
    (x : Nat), x ∈ posTags k c j l → x < k
  | _, [], x, hx => by simp [posTags] at hx
  | j, a :: t, x, hx => by
    by_cases h : a = c
    · rw [posTags, if_pos h] at hx
      rcases List.mem_cons.mp hx with h1 | h1
      · subst h1; exact Nat.mod_lt _ hk
      · exact posTags_mem_lt hk c (j + 1) t x h1
    · rw [posTags, if_neg h] at hx
      exact posTags_mem_lt hk c (j + 1) t x hx

/-- Sorting preserves counts. -/
theorem sortNat_count (l : List Nat) (c : Nat) : (sortNat l).count c = l.count c :=
  (List.perm_insertionSort _ l).count_eq c

/-- Sorting preserves length. -/
theorem sortNat_length (l : List Nat) : (sortNat l).length = l.length :=
  (List.perm_insertionSort _ l).length_eq

/-- Sorting preserves membership. -/
theorem sortNat_mem (l : List Nat) (x : Nat) : x ∈ sortNat l ↔ x ∈ l :=
  (List.perm_insertionSort _ l).mem_iff

/-- A class's fold-id list has exactly as many entries as the class has rows. -/
theorem foldsForClass_length (k : Nat) (y : List Nat) (c : Nat) :
    (foldsForClass k y c).length = y.count c := by
  unfold foldsForClass
  rw [sortNat_length, posTags_length, sortNat_count]

/-- Every fold id allocated to a class is below `k`. -/
theorem foldsForClass_mem_lt {k : Nat} (hk : 0 < k) (y : List Nat) (c x : Nat)
    (hx : x ∈ foldsForClass k y c) : x < k := by
  unfold foldsForClass at hx
  rw [sortNat_mem] at hx
  exact posTags_mem_lt hk c 0 (sortNat y) x hx

/-- Strictly fewer same-class rows precede row `r` than exist in all of `y`. -/
theorem count_take_lt (y : List Nat) (r : Nat) (hr : r < y.length) :
    (y.take r).count (y.getD r 0) < y.count (y.getD r 0) := by
  have hg : y.getD r 0 = y[r] := List.getD_eq_getElem y 0 hr
  rw [hg]
  have hsplit := List.count_append y[r] (List.take r y) (List.drop r y)
  rw [List.take_append_drop] at hsplit
  have hdrop : (y.drop r).count y[r] = (y.drop (r + 1)).count y[r] + 1 := by
    rw [List.drop_eq_getElem_cons hr, List.count_cons]
    simp
  omega

/-- Every row of the dataset is assigned a test-fold id below `k`. -/
theorem testFoldOf_lt (k : Nat) (y : List Nat) (σ : Nat → List Nat → List Nat)
    (hσ : ∀ c l, (σ c l).Perm l) (hk : 0 < k) (r : Nat) (hr : r < y.length) :
    testFoldOf k y σ r < k := by
  unfold testFoldOf
  have hlen : (σ (y.getD r 0) (foldsForClass k y (y.getD r 0))).length
      = y.count (y.getD r 0) := by
    rw [(hσ _ _).length_eq, foldsForClass_length]
  have hidx : (y.take r).count (y.getD r 0)
      < (σ (y.getD r 0) (foldsForClass k y (y.getD r 0))).length := by
    rw [hlen]
    exact count_take_lt y r hr
  rw [List.getD_eq_getElem _ 0 hidx]
  have hmem := List.getElem_mem hidx
  rw [(hσ _ _).mem_iff] at hmem
  exact foldsForClass_mem_lt hk y _ _ hmem

/-- Membership in a fold's outer-test partition. -/
theorem mem_stratified_test_iff (k : Nat) (y : List Nat)
    (σ : Nat → List Nat → List Nat) (i r : Nat) :
    r ∈ stratified_test_indices k y σ i ↔ r < y.length ∧ testFoldOf k y σ r = i := by
  simp [stratified_test_indices, List.mem_filter, List.mem_range]

/-- Membership in a fold's outer-training partition. -/
theorem mem_stratified_train_iff (k : Nat) (y : List Nat)
    (σ : Nat → List Nat → List Nat) (i r : Nat) :
    r ∈ stratified_train_indices k y σ i ↔ r < y.length ∧ testFoldOf k y σ r ≠ i := by
  simp [stratified_train_indices, List.mem_filter, List.mem_range]

/-- C1: nested cross-validation is a true partition and fits only on the
training partition.  For every outer fold produced by the loop: no row index
lies in both the training and the test partition; the rows every fit call of
the fold receives are exactly the training partition, so no fitted
preprocessing statistic ever sees the fold's test partition; and every row
of the dataset lies in exactly one of the five outer-test partitions. -/
theorem nested_cv_fold_partition (y : List Nat) (σ : Nat → List Nat → List Nat)
    (hσ : ∀ c l, (σ c l).Perm l) (fr : FoldRun)
    (hfr : fr ∈ nested_cv_folds N_OUTER y σ) (r : Nat) :
    (¬ (r ∈ fr.tr_idx ∧ r ∈ fr.te_idx))
    ∧ fr.fit_idx = fr.tr_idx
    ∧ (∀ q ∈ fr.fit_idx, q ∉ fr.te_idx)
    ∧ (r < y.length → ∃! i, i < N_OUTER ∧ r ∈ stratified_test_indices N_OUTER y σ i) := by
  obtain ⟨i, hi, hfi⟩ := List.mem_map.mp hfr
  subst hfi
  dsimp only
  refine ⟨?_, rfl, ?_, ?_⟩
  · rintro ⟨htr, hte⟩
    rw [mem_stratified_train_iff] at htr
    rw [mem_stratified_test_iff] at hte
    exact htr.2 hte.2
  · intro q hq hq2
    rw [mem_stratified_train_iff] at hq
    rw [mem_stratified_test_iff] at hq2
    exact hq.2 hq2.2
  · intro hr
    refine ⟨testFoldOf N_OUTER y σ r, ⟨?_, ?_⟩, ?_⟩
    · exact testFoldOf_lt N_OUTER y σ hσ (by decide) r hr
    · rw [mem_stratified_test_iff]
      exact ⟨hr, rfl⟩
    · intro j hj
      rw [mem_stratified_test_iff] at hj
      exact hj.2.2.symm

/-- C1 witness: on a concrete balanced ten-row label vector with the
identity shuffle, the first outer fold is produced by the loop and row 0
lies in exactly one outer-test partition. -/
theorem nested_cv_fold_partition_witness :
    (∀ c l, (idShuffle c l).Perm l)
    ∧ frDemo ∈ nested_cv_folds N_OUTER yDemo idShuffle
    ∧ (∃! i, i < N_OUTER ∧ 0 ∈ stratified_test_indices N_OUTER yDemo idShuffle i) := by
  have hperm : ∀ c l, (idShuffle c l).Perm l := fun _ l => List.Perm.refl l
  have hmem : frDemo ∈ nested_cv_folds N_OUTER yDemo idShuffle := by decide
  exact ⟨hperm, hmem,
    (nested_cv_fold_partition yDemo idShuffle hperm frDemo hmem 0).2.2.2 (by decide)⟩

-- ---------------------------------------------------------------------------
-- Theorems: C10, C6 (AUC range and complement symmetry)
-- ---------------------------------------------------------------------------

/-- A pair contribution lies in [0, 1]. -/
theorem pairScore_bounds (a b : ℚ) : 0 ≤ pairScore a b ∧ pairScore a b ≤ 1 := by
  unfold pairScore
  split_ifs <;> norm_num

/-- A list of values in [0, B] sums to something in [0, length * B]. -/
theorem sum_bounds_of_mem (l : List ℚ) (B : ℚ) (hB : 0 ≤ B)
    (h : ∀ a ∈ l, 0 ≤ a ∧ a ≤ B) : 0 ≤ l.sum ∧ l.sum ≤ l.length * B := by
  induction l with
  | nil => simp
  | cons a t ih =>
    have ha := h a (List.mem_cons_self a t)
    have ht := ih (fun b hb => h b (List.mem_cons_of_mem a hb))
    rw [List.sum_cons, List.length_cons]
    push_cast
    constructor
    · linarith [ha.1, ht.1]
    · nlinarith [ha.2, ht.2]

/-- A successful `roc_auc_score` lies in [0, 1]. -/
theorem roc_auc_score_mem_unit (y : List Bool) (x : List ℚ) (s : ℚ)
    (h : roc_auc_score y x = Except.ok s) : 0 ≤ s ∧ s ≤ 1 := by
  unfold roc_auc_score at h
  by_cases hdeg : posVals y x = [] ∨ negVals y x = []
  · rw [if_pos hdeg] at h
    exact absurd h (by simp)
  · rw [if_neg hdeg] at h
    have hs : aucSum y x / ((posVals y x).length * (negVals y x).length) = s := by
      simpa using h
    push_neg at hdeg
    have hP : 0 < ((posVals y x).length : ℚ) := by
      exact_mod_cast List.length_pos.mpr hdeg.1
    have hN : 0 < ((negVals y x).length : ℚ) := by
      exact_mod_cast List.length_pos.mpr hdeg.2
    have hinner : ∀ a ∈ (posVals y x).map
        (fun a => ((negVals y x).map (fun b => pairScore a b)).sum),
        0 ≤ a ∧ a ≤ ((negVals y x).length : ℚ) := by
      intro v hv
      obtain ⟨a, _, rfl⟩ := List.mem_map.mp hv
      have := sum_bounds_of_mem ((negVals y x).map (fun b => pairScore a b)) 1
        (by norm_num)
        (by
          intro w hw
          obtain ⟨b, _, rfl⟩ := List.mem_map.mp hw
          exact pairScore_bounds a b)
      rw [List.length_map, mul_one] at this
      exact this
    have houter := sum_bounds_of_mem _ ((negVals y x).length : ℚ) (le_of_lt hN) hinner
    rw [List.length_map] at houter
    unfold aucSum at hs
    rw [← hs]
    constructor
    · exact div_nonneg houter.1 (by positivity)
    · rw [div_le_one (by positivity)]
      exact houter.2
/-- Unfold one column of the `single_feature_auc` loop. -/
theorem single_feature_auc_cons (cd : String × ColData) (t : Frame) (y : List Bool) :
    single_feature_auc (cd :: t) y
      = (match colScore y cd.2 with
        | Except.ok s => (cd.1, max s (1 - s)) :: single_feature_auc t y
        | Except.error _ => single_feature_auc t y) := rfl

/-- Every emitted score is a chance-distance fold of a successful AUC. -/
theorem single_feature_auc_mem (cols : Frame) (y : List Bool) (c : String) (v : ℚ)
    (h : (c, v) ∈ single_feature_auc cols y) :
    ∃ d s, (c, d) ∈ cols ∧ colScore y d = Except.ok s ∧ v = max s (1 - s) := by
  induction cols with
  | nil => exact absurd h (List.not_mem_nil _)
  | cons cd t ih =>
    rw [single_feature_auc_cons] at h
    cases hcs : colScore y cd.2 with
    | ok s =>
      rw [hcs] at h
      rcases List.mem_cons.mp h with h1 | h1
      · have hc : c = cd.1 := congrArg Prod.fst h1
        have hv : v = max s (1 - s) := congrArg Prod.snd h1
        exact ⟨cd.2, s, by simp [hc], by rw [hcs], hv⟩
      · obtain ⟨d, s', hd, hs', hv⟩ := ih h1
        exact ⟨d, s', List.mem_cons_of_mem cd hd, hs', hv⟩
    | error e =>
      rw [hcs] at h
      obtain ⟨d, s', hd, hs', hv⟩ := ih h
      exact ⟨d, s', List.mem_cons_of_mem cd hd, hs', hv⟩

/-- A successful column score lies in [0, 1]. -/
theorem colScore_mem_unit (y : List Bool) (d : ColData) (s : ℚ)
    (h : colScore y d = Except.ok s) : 0 ≤ s ∧ s ≤ 1 := by
  cases d with
  | num vs =>
    simp only [colScore] at h
    by_cases hnan : vs.any (fun o => o.isNone)
    · rw [if_pos hnan] at h
      exact absurd h (by simp)
    · rw [if_neg hnan] at h
      exact roc_auc_score_mem_unit y _ s h
  | cat vs =>
    exact roc_auc_score_mem_unit y _ s h

/-- C10: every discriminative score the leakage scorer emits lies in
[1/2, 1]: any column whose score computation succeeds is recorded as
`max(score, 1 - score)` with the underlying AUC in [0, 1], so the
chance-distance fold never goes below chance. -/
theorem single_feature_auc_range (cols : Frame) (y : List Bool) (c : String) (v : ℚ)
    (h : (c, v) ∈ single_feature_auc cols y) : 1 / 2 ≤ v ∧ v ≤ 1 := by
  obtain ⟨d, s, _, hok, hv⟩ := single_feature_auc_mem cols y c v h
  have hs := colScore_mem_unit y d s hok
  subst hv
  constructor
  · rcases le_total s (1 / 2) with h1 | h1
    · exact le_trans (by linarith) (le_max_right s (1 - s))
    · exact le_trans h1 (le_max_left s (1 - s))
  · exact max_le hs.2 (by linarith [hs.1])

/-- C10 witness: on a concrete one-column frame the emitted score 1 lies in
[1/2, 1]. -/
theorem single_feature_auc_range_witness : 1 / 2 ≤ (1 : ℚ) ∧ (1 : ℚ) ≤ 1 :=
  single_feature_auc_range [("F", ColData.num [some 0, some 1])] [false, true] "F" 1
    (by
      have h : single_feature_auc [("F", ColData.num [some 0, some 1])] [false, true]
          = [("F", 1)] := by
        norm_num [single_feature_auc, colScore, roc_auc_score, aucSum, posVals,
          negVals, pairScore]
        rw [if_neg (by simp : ¬ ((none : Option ℚ) = some 0 ∨ (none : Option ℚ) = some 1))]
        norm_num
      rw [h]
      exact List.mem_singleton.mpr rfl)

/-- Mapping the scores maps the positive-class scores. -/
theorem posVals_map (y : List Bool) (x : List ℚ) (f : ℚ → ℚ) :
    posVals y (x.map f) = (posVals y x).map f := by
  simp [posVals, List.zip_map_right, List.filter_map, List.map_map, Function.comp_def]

/-- Mapping the scores maps the negative-class scores. -/
theorem negVals_map (y : List Bool) (x : List ℚ) (f : ℚ → ℚ) :
    negVals y (x.map f) = (negVals y x).map f := by
  simp [negVals, List.zip_map_right, List.filter_map, List.map_map, Function.comp_def]

/-- Complementing both scores flips a pair contribution. -/
theorem pairScore_compl (a b : ℚ) : pairScore (1 - a) (1 - b) = 1 - pairScore a b := by
  unfold pairScore
  rcases lt_trichotomy a b with h | h | h
  · rw [if_pos (by linarith), if_neg (by linarith), if_neg (by linarith)]
    norm_num
  · rw [if_neg (by linarith), if_pos (by linarith), if_neg (by linarith), if_pos h]
    norm_num
  · rw [if_neg (by linarith), if_neg (by linarith), if_pos (by linarith)]
    norm_num

/-- Summing pointwise differences from a constant. -/
theorem sum_map_const_sub (l : List ℚ) (c : ℚ) (f : ℚ → ℚ) :
    (l.map (fun a => c - f a)).sum = l.length * c - (l.map f).sum := by
  induction l with
  | nil => simp
  | cons a t ih =>
    simp only [List.map_cons, List.sum_cons, List.length_cons, ih]
    push_cast
    ring

/-- Complementing the scores replaces the pair sum by its co-sum. -/
theorem aucSum_compl (y : List Bool) (x : List ℚ) :
    aucSum y (x.map (fun v => 1 - v))
      = (posVals y x).length * (negVals y x).length - aucSum y x := by
  unfold aucSum
  rw [posVals_map, negVals_map, List.map_map]
  have h1 : ((fun a => (((negVals y x).map (fun v => 1 - v)).map (fun b => pairScore a b)).sum)
      ∘ (fun v => 1 - v))
      = fun a => ((negVals y x).length : ℚ)
          - ((negVals y x).map (fun b => pairScore a b)).sum := by
    funext a
    simp only [Function.comp_apply, List.map_map]
    have h2 : ((fun b => pairScore (1 - a) b) ∘ (fun v => 1 - v))
        = fun b => 1 - pairScore a b := by
      funext b
      simp [Function.comp_apply, pairScore_compl]
    rw [h2, sum_map_const_sub, mul_one]
  rw [h1, sum_map_const_sub]

/-- C6: the discriminative score is symmetric under complementation.  For a
binary feature column whose AUC is defined, scoring the bitwise complement
(0 and 1 swapped, i.e. every value v replaced by 1 - v) against the same
target succeeds as well, and the two chance-distance folds
`max(score, 1 - score)` coincide. -/
theorem single_feature_auc_complement (y : List Bool) (x : List ℚ)
    (hbin : ∀ v ∈ x, v = 0 ∨ v = 1) (s : ℚ)
    (h : roc_auc_score y x = Except.ok s) :
    ∃ s', roc_auc_score y (x.map (fun v => 1 - v)) = Except.ok s'
      ∧ max s (1 - s) = max s' (1 - s') := by
  unfold roc_auc_score at h ⊢
  by_cases hdeg : posVals y x = [] ∨ negVals y x = []
  · rw [if_pos hdeg] at h
    exact absurd h (by simp)
  · rw [if_neg hdeg] at h
    have hs : aucSum y x / (((posVals y x).length : ℚ) * ((negVals y x).length : ℚ)) = s := by
      simpa using h
    push_neg at hdeg
    have hdeg2 : ¬ (posVals y (x.map (fun v => 1 - v)) = []
        ∨ negVals y (x.map (fun v => 1 - v)) = []) := by
      rw [posVals_map, negVals_map]
      push_neg
      constructor
      · simpa using hdeg.1
      · simpa using hdeg.2
    rw [if_neg hdeg2]
    refine ⟨_, rfl, ?_⟩
    rw [posVals_map, negVals_map, List.length_map, List.length_map, aucSum_compl]
    have hP : (0 : ℚ) < ((posVals y x).length : ℚ) := by
      exact_mod_cast List.length_pos.mpr hdeg.1
    have hN : (0 : ℚ) < ((negVals y x).length : ℚ) := by
      exact_mod_cast List.length_pos.mpr hdeg.2
    have hs' : (((posVals y x).length : ℚ) * ((negVals y x).length : ℚ) - aucSum y x)
        / (((posVals y x).length : ℚ) * ((negVals y x).length : ℚ)) = 1 - s := by
      rw [← hs]
      field_simp
    rw [hs']
    have h3 : 1 - (1 - s) = s := by ring
    rw [h3, max_comm]

/-- C6 witness: the binary column [1, 0] against target [true, false] has
AUC 1, and its complement reaches the same chance-distance score. -/
theorem single_feature_auc_complement_witness :
    (∀ v ∈ ([1, 0] : List ℚ), v = 0 ∨ v = 1)
    ∧ ∃ s', roc_auc_score [true, false] (([1, 0] : List ℚ).map (fun v => 1 - v))
        = Except.ok s' ∧ max 1 (1 - 1) = max s' (1 - s') := by
  refine ⟨by decide, ?_⟩
  exact single_feature_auc_complement [true, false] [1, 0] (by decide) 1
    (by norm_num [roc_auc_score, aucSum, posVals, negVals, pairScore])

-- ---------------------------------------------------------------------------
-- Theorems: C4, C5 (mutual-information keys and top-suspicious ordering)
-- ---------------------------------------------------------------------------

/-- Membership in the accumulator-based deduplication. -/
theorem mem_uniqAux {α : Type} [DecidableEq α] (a : α) :
    ∀ (seen l : List α), a ∈ uniqAux seen l ↔ a ∈ l ∧ a ∉ seen
  | _, [] => by simp [uniqAux]
  | seen, b :: t => by
    by_cases hb : b ∈ seen
    · rw [uniqAux, if_pos hb, mem_uniqAux a seen t]
      constructor
      · rintro ⟨h1, h2⟩
        exact ⟨List.mem_cons_of_mem b h1, h2⟩
      · rintro ⟨h1, h2⟩
        rcases List.mem_cons.mp h1 with h3 | h3
        · subst h3
          exact absurd hb h2
        · exact ⟨h3, h2⟩
    · rw [uniqAux, if_neg hb]
      constructor
      · intro h1
        rcases List.mem_cons.mp h1 with h3 | h3
        · subst h3
          exact ⟨List.mem_cons_self _ _, hb⟩
        · rw [mem_uniqAux a (b :: seen) t] at h3
          exact ⟨List.mem_cons_of_mem b h3.1,
            fun hs => h3.2 (List.mem_cons_of_mem b hs)⟩
      · rintro ⟨h1, h2⟩
        by_cases hab : a = b
        · subst hab
          exact List.mem_cons_self _ _
        · rcases List.mem_cons.mp h1 with h3 | h3
          · exact absurd h3 hab
          · refine List.mem_cons_of_mem b ?_
            rw [mem_uniqAux a (b :: seen) t]
            refine ⟨h3, ?_⟩
            intro hs
            rcases List.mem_cons.mp hs with h4 | h4
            · exact hab h4
            · exact h2 h4

/-- Deduplication preserves membership. -/
theorem mem_uniqList {α : Type} [DecidableEq α] (a : α) (l : List α) :
    a ∈ uniqList l ↔ a ∈ l := by
  rw [uniqList, mem_uniqAux]
  simp

/-- The keys of the mutual-information dict are the encoded column names. -/
theorem mutual_info_scores_keys (cols : Frame) (est : Nat → ℚ) :
    (mutual_info_scores cols est).map Prod.fst = mutual_info_encode cols := by
  unfold mutual_info_scores
  rw [List.map_map]
  have h : (Prod.fst ∘ fun p : Nat × String => (p.2, est p.1)) = Prod.snd := rfl
  rw [h, List.enum_map_snd]

/-- A key present among a dict's pairs is found by `dict.get`. -/
theorem dictGet_isSome_of_key (l : List (String × ℚ)) (k : String)
    (h : k ∈ l.map Prod.fst) : (dictGet l k).isSome = true := by
  unfold dictGet
  have hfind : (List.find? (fun p => p.1 == k) l.reverse).isSome = true := by
    rw [List.find?_isSome]
    obtain ⟨p, hp, hfst⟩ := List.mem_map.mp h
    exact ⟨p, List.mem_reverse.mpr hp, by simp [hfst]⟩
  obtain ⟨p, hp⟩ := Option.isSome_iff_exists.mp hfind
  rw [hp]
  rfl

/-- C4 counterexample: for a categorical column Color the mutual-information
dict is keyed by the dummy-encoded names Color_a, Color_b, Color_nan, so the
lookup under the original name yields nothing and the leakage-report entry
for Color carries a missing mutual-information value, against the claim that
every column's entry carries a non-missing value keyed by the original
name. -/
theorem mutual_info_original_key_cex :
    (mutual_info_scores [("Color", ColData.cat [some "a", some "b"])]
        (fun _ => 0)).map Prod.fst = ["Color_a", "Color_b", "Color_nan"]
    ∧ dictGet (mutual_info_scores [("Color", ColData.cat [some "a", some "b"])]
        (fun _ => 0)) "Color" = none
    ∧ leakEntries ["T", "Color"] "T"
        (single_feature_auc [("Color", ColData.cat [some "a", some "b"])] [false, true])
        (mutual_info_scores [("Color", ColData.cat [some "a", some "b"])] (fun _ => 0))
      = [⟨"Color", some (1 / 2), none⟩] := by
  refine ⟨by decide, by decide, ?_⟩
  have haucs : single_feature_auc [("Color", ColData.cat [some "a", some "b"])]
      [false, true] = [("Color", 1 / 2)] := by
    norm_num [single_feature_auc, colScore, roc_auc_score, aucSum, posVals, negVals,
      pairScore, catProbs, uniqList, uniqAux,
      show ("b" : String) ≠ "a" from by decide, show ("a" : String) ≠ "b" from by decide,
      show (some "a" : Option String) ≠ none from by decide,
      show (some "b" : Option String) ≠ none from by decide]
  rw [haucs]
  have hmi : dictGet (mutual_info_scores [("Color", ColData.cat [some "a", some "b"])]
      (fun _ => 0)) "Color" = none := by decide
  simp [leakEntries, hmi]
  norm_num [dictGet]

/-- C4 amended: the mutual-information dict is keyed by the post-encoding
column names: every numeric column's score is present under its original
name, while a categorical column's scores live under its dummy-encoded
names of the form name_value (so a lookup under the categorical column's
original name finds nothing, as the counterexample shows). -/
theorem mutual_info_keys_amended (cols : Frame) (est : Nat → ℚ) (c : String) :
    (∀ vs, (c, ColData.num vs) ∈ cols →
      (dictGet (mutual_info_scores cols est) c).isSome = true)
    ∧ (∀ vs v, (c, ColData.cat vs) ∈ cols → some v ∈ vs →
      (c ++ "_" ++ v) ∈ (mutual_info_scores cols est).map Prod.fst) := by
  constructor
  · intro vs h
    apply dictGet_isSome_of_key
    rw [mutual_info_scores_keys]
    unfold mutual_info_encode
    apply List.mem_append.mpr
    left
    exact List.mem_map.mpr ⟨(c, ColData.num vs), List.mem_filter.mpr ⟨h, rfl⟩, rfl⟩
  · intro vs v h hv
    rw [mutual_info_scores_keys]
    unfold mutual_info_encode
    apply List.mem_append.mpr
    right
    apply List.mem_flatMap.mpr
    refine ⟨(c, ColData.cat vs), h, ?_⟩
    show c ++ "_" ++ v ∈ dummyNames c vs
    unfold dummyNames
    apply List.mem_append.mpr
    left
    apply List.mem_map.mpr
    refine ⟨v, ?_, rfl⟩
    unfold pySortStrings
    rw [(List.perm_insertionSort _ _).mem_iff, mem_uniqList]
    exact List.mem_filterMap.mpr ⟨some v, hv, rfl⟩

/-- C4-amended witness: on a concrete two-column frame the numeric column N
is found under its own name and the categorical column C contributes the
dummy key C_x. -/
theorem mutual_info_keys_amended_witness :
    (dictGet (mutual_info_scores
      [("N", ColData.num [some 1]), ("C", ColData.cat [some "x"])] (fun _ => 0))
      "N").isSome = true
    ∧ ("C" ++ "_" ++ "x") ∈ (mutual_info_scores
      [("N", ColData.num [some 1]), ("C", ColData.cat [some "x"])] (fun _ => 0)).map
        Prod.fst := by
  constructor
  · exact (mutual_info_keys_amended
      [("N", ColData.num [some 1]), ("C", ColData.cat [some "x"])] (fun _ => 0) "N").1
      [some 1] (by decide)
  · exact (mutual_info_keys_amended
      [("N", ColData.num [some 1]), ("C", ColData.cat [some "x"])] (fun _ => 0) "C").2
      [some "x"] "x" (by decide) (by decide)

/-- C5 counterexample: with equal discriminative scores, a column with a
missing mutual-information score (encoded as the key component False, i.e.
0) ties with a column whose present mutual-information score is exactly 0,
and the stable sort keeps original column order: entry A with missing score
precedes entry B with a present score, so missing scores are not always
placed after present ones. -/
theorem top_suspicious_order_cex :
    top_suspicious ["A", "B", "T"] "T" [("A", 1), ("B", 1)] [("B", 0)]
      = [⟨"A", some 1, none⟩, ⟨"B", some 1, some 0⟩]
    ∧ ¬ List.Pairwise specLE
        (top_suspicious ["A", "B", "T"] "T" [("A", 1), ("B", 1)] [("B", 0)]) := by
  refine ⟨by decide, by decide⟩

/-- C5 amended: the top-suspicious list holds at most 30 entries and is
sorted ascending in the implemented Python key — primarily the negated
discriminative score, secondarily the negated mutual-information score, a
missing score entering as 0 (Python False), ties kept in original column
order.  For the score ranges the audit produces (AUC at least 1/2) this is
descending by present scores with missing discriminative scores last, but a
missing mutual-information score ties with a present 0. -/
theorem top_suspicious_sorted_amended (names : List String) (target : String)
    (aucs mi : List (String × ℚ)) :
    (top_suspicious names target aucs mi).length ≤ 30
    ∧ List.Pairwise implKeyLE (top_suspicious names target aucs mi) := by
  constructor
  · exact List.length_take_le 30 _
  · unfold top_suspicious pyStableSortSusp
    have hs : List.Sorted suspLE
        (List.insertionSort suspLE (leakEntries names target aucs mi).enum) :=
      List.sorted_insertionSort suspLE _
    have hp : List.Pairwise implKeyLE
        ((List.insertionSort suspLE (leakEntries names target aucs mi).enum).map
          Prod.snd) := by
      apply List.Pairwise.map Prod.snd ?_ hs
      intro a b hab
      rcases hab with h | ⟨h, _⟩
      · exact Or.inl h
      · exact Or.inr h
    exact List.Pairwise.sublist (List.take_sublist 30 _) hp
